import Mathlib

/-!
Verification of the aegis L4 data plane (src/data-plane) against its
natural-language specification.  Each Rust component the claims touch is
shallowly embedded: pure structs become Lean structures, `&mut self`
methods become state-passing functions, `u32`/`u64` arithmetic is `Nat`
with explicit `% 2^32` / `% 2^64` where the machine type wraps, and the
monotonic clock (`Instant`) is a rational-number timestamp passed in
explicitly (`Instant::duration_since` saturates at zero, modelled with
`max _ 0`).  `f64` token arithmetic is modelled with `ℚ`, following the
spec's description of the bucket as real-valued.
-/

namespace Aegis

/-! ### Generic association-list maps

`HashMap` / `DashMap` contents are modelled as association lists with a
functional lookup (first match), insert-or-replace, and erase.  Only the
map view (lookup) matters to the claims.
-/

def lookupKV {K V : Type} [DecidableEq K] : List (K × V) → K → Option V
  | [], _ => none
  | (k, v) :: t, k' => if k' = k then some v else lookupKV t k'

def eraseKV {K V : Type} [DecidableEq K] (k : K) : List (K × V) → List (K × V)
  | [] => []
  | p :: t => if p.1 = k then eraseKV k t else p :: eraseKV k t

def insertKV {K V : Type} [DecidableEq K] (k : K) (v : V) (l : List (K × V)) :
    List (K × V) :=
  (k, v) :: eraseKV k l

theorem lookupKV_erase_self {K V : Type} [DecidableEq K] (l : List (K × V))
    (k : K) : lookupKV (eraseKV k l) k = none := by
  induction l with
  | nil => simp [eraseKV, lookupKV]
  | cons p t ih =>
    by_cases hp : p.1 = k
    · simpa [eraseKV, hp] using ih
    · have hk : ¬ (k = p.1) := fun hh => hp hh.symm
      simpa [eraseKV, hp, lookupKV, hk] using ih

theorem lookupKV_erase_ne {K V : Type} [DecidableEq K] (l : List (K × V))
    (k k' : K) (h : k' ≠ k) :
    lookupKV (eraseKV k l) k' = lookupKV l k' := by
  induction l with
  | nil => simp [eraseKV]
  | cons p t ih =>
    by_cases hp : p.1 = k
    · simpa [eraseKV, hp, lookupKV, h] using ih
    · by_cases hk : k' = p.1
      · simp [eraseKV, hp, lookupKV, hk]
      · simpa [eraseKV, hp, lookupKV, hk] using ih

theorem lookupKV_insert_self {K V : Type} [DecidableEq K] (l : List (K × V))
    (k : K) (v : V) : lookupKV (insertKV k v l) k = some v := by
  simp [insertKV, lookupKV]

theorem lookupKV_insert_ne {K V : Type} [DecidableEq K] (l : List (K × V))
    (k k' : K) (v : V) (h : k' ≠ k) :
    lookupKV (insertKV k v l) k' = lookupKV l k' := by
  simp only [insertKV, lookupKV, if_neg h]
  exact lookupKV_erase_ne l k k' h

/-! ### Machine-integer helpers -/

def u32Mod (n : Nat) : Nat := n % 2 ^ 32

def u64Add (a n : Nat) : Nat := (a + n) % 2 ^ 64

/-- Wrapping `u64` subtraction by one (`fetch_sub(1)` on an `AtomicU64`):
zero wraps to `u64::MAX`.  `u64Sub1_eq_wrap` shows this agrees with the
two's-complement form on every representable value. -/
def u64Sub1 (a : Nat) : Nat := if a = 0 then 2 ^ 64 - 1 else a - 1

theorem u64Sub1_eq_wrap (a : Nat) (h : a < 2 ^ 64) :
    u64Sub1 a = (a + (2 ^ 64 - 1)) % 2 ^ 64 := by
  unfold u64Sub1
  by_cases h0 : a = 0
  · subst h0
    norm_num
  · rw [if_neg h0]
    omega

theorem u64Add_ge (a n : Nat) (h : a + n < 2 ^ 64) : a ≤ u64Add a n := by
  unfold u64Add
  rw [Nat.mod_eq_of_lt h]
  omega

/-! ### Circuit breaker (src/data-plane/src/circuit_breaker.rs)

`CircuitBreaker` is embedded field by field; `u32` counters wrap mod
`2^32`; `Instant` timestamps are `ℚ`.  Methods that read the clock take
`now : ℚ`.
-/

inductive CircuitState
  | Closed
  | Open
  | HalfOpen
deriving DecidableEq, Repr

structure CircuitBreaker where
  state : CircuitState
  failure_count : Nat
  success_count : Nat
  last_failure_time : Option ℚ
  error_threshold : Nat
  timeout : ℚ
  half_open_max_requests : Nat
deriving DecidableEq, Repr

def CircuitBreaker.new (error_threshold : Nat) (timeout : ℚ) : CircuitBreaker :=
  { state := .Closed
    failure_count := 0
    success_count := 0
    last_failure_time := none
    error_threshold := error_threshold
    timeout := timeout
    half_open_max_requests := 3 }

def transition_to_closed (b : CircuitBreaker) : CircuitBreaker :=
  { b with state := .Closed, failure_count := 0, success_count := 0,
           last_failure_time := none }

def transition_to_open (now : ℚ) (b : CircuitBreaker) : CircuitBreaker :=
  { b with state := .Open, last_failure_time := some now }

def transition_to_half_open (b : CircuitBreaker) : CircuitBreaker :=
  { b with state := .HalfOpen, success_count := 0 }

def CircuitBreaker.allow_request (now : ℚ) (b : CircuitBreaker) :
    Bool × CircuitBreaker :=
  match b.state with
  | .Closed => (true, b)
  | .Open =>
    match b.last_failure_time with
    | some last_failure =>
      if b.timeout ≤ max (now - last_failure) 0 then
        (true, transition_to_half_open b)
      else
        (false, b)
    | none => (false, b)
  | .HalfOpen => (decide (b.success_count < b.half_open_max_requests), b)

def CircuitBreaker.record_success (b : CircuitBreaker) : CircuitBreaker :=
  match b.state with
  | .Closed => { b with failure_count := 0 }
  | .HalfOpen =>
    let b' := { b with success_count := u32Mod (b.success_count + 1) }
    if b'.half_open_max_requests ≤ b'.success_count then transition_to_closed b'
    else b'
  | .Open => b

def CircuitBreaker.record_failure (now : ℚ) (b : CircuitBreaker) :
    CircuitBreaker :=
  match b.state with
  | .Closed =>
    let b' := { b with failure_count := u32Mod (b.failure_count + 1),
                       last_failure_time := some now }
    if b'.error_threshold ≤ b'.failure_count then transition_to_open now b'
    else b'
  | .HalfOpen => transition_to_open now b
  | .Open => { b with last_failure_time := some now }

/-- A sequence of `record_failure` calls at the given timestamps. -/
def recordFailures (ts : List ℚ) (b : CircuitBreaker) : CircuitBreaker :=
  ts.foldl (fun b t => b.record_failure t) b

/-- `k` consecutive `record_success` calls. -/
def recordSuccesses : Nat → CircuitBreaker → CircuitBreaker
  | 0, b => b
  | k + 1, b => recordSuccesses k b.record_success

theorem recordFailures_append (l₁ l₂ : List ℚ) (b : CircuitBreaker) :
    recordFailures (l₁ ++ l₂) b = recordFailures l₂ (recordFailures l₁ b) := by
  simp [recordFailures, List.foldl_append]

theorem record_failure_closed_lt (b : CircuitBreaker) (t : ℚ)
    (hs : b.state = .Closed) (hlt : b.failure_count + 1 < b.error_threshold)
    (hT : b.error_threshold < 2 ^ 32) :
    b.record_failure t =
      { b with failure_count := b.failure_count + 1,
               last_failure_time := some t } := by
  have hm : u32Mod (b.failure_count + 1) = b.failure_count + 1 :=
    Nat.mod_eq_of_lt (lt_trans hlt hT)
  have hcond : ¬ b.error_threshold ≤ b.failure_count + 1 := by omega
  simp [CircuitBreaker.record_failure, hs, hm, hcond]

theorem record_failure_closed_trip (b : CircuitBreaker) (t : ℚ)
    (hs : b.state = .Closed) (heq : b.failure_count + 1 = b.error_threshold)
    (hT : b.error_threshold < 2 ^ 32) :
    b.record_failure t =
      { b with state := .Open, failure_count := b.error_threshold,
               last_failure_time := some t } := by
  have hm : u32Mod (b.failure_count + 1) = b.failure_count + 1 :=
    Nat.mod_eq_of_lt (by omega)
  have hcond : b.error_threshold ≤ b.failure_count + 1 := by omega
  simp [CircuitBreaker.record_failure, hs, hm, hcond, transition_to_open]
  omega

theorem recordFailures_closed_run (ts : List ℚ) (b : CircuitBreaker)
    (hs : b.state = .Closed)
    (hlen : b.failure_count + ts.length < b.error_threshold)
    (hT : b.error_threshold < 2 ^ 32) :
    (recordFailures ts b).state = .Closed ∧
    (recordFailures ts b).failure_count = b.failure_count + ts.length ∧
    (recordFailures ts b).error_threshold = b.error_threshold := by
  induction ts generalizing b with
  | nil => simp [recordFailures, hs]
  | cons t rest ih =>
    have hlen' : b.failure_count + 1 + rest.length < b.error_threshold := by
      simp only [List.length_cons] at hlen
      omega
    have hstep : b.record_failure t =
        { b with failure_count := b.failure_count + 1,
                 last_failure_time := some t } :=
      record_failure_closed_lt b t hs (by omega) hT
    have h1 : (recordFailures (t :: rest) b) =
        recordFailures rest (b.record_failure t) := by
      simp [recordFailures]
    rw [h1, hstep]
    obtain ⟨a1, a2, a3⟩ := ih
      { b with failure_count := b.failure_count + 1,
               last_failure_time := some t }
      hs hlen' hT
    refine ⟨a1, ?_, a3⟩
    rw [a2]
    simp only [List.length_cons]
    omega

/-- C1.  On a fresh breaker with `error_threshold = T` (1 ≤ T < 2^32), a run
of `record_failure` calls with no intervening `record_success` leaves the
state `Closed` while fewer than `T` failures have been recorded, and the
`T`-th failure transitions the breaker to `Open` with `last_failure_time`
set to the time of that failure. -/
theorem breaker_opens_exactly_at_threshold (T : Nat) (tmo : ℚ) (ts : List ℚ)
    (hT1 : 1 ≤ T) (hT2 : T < 2 ^ 32) :
    (ts.length < T →
      (recordFailures ts (CircuitBreaker.new T tmo)).state = .Closed) ∧
    (ts.length = T →
      (recordFailures ts (CircuitBreaker.new T tmo)).state = .Open ∧
      (recordFailures ts (CircuitBreaker.new T tmo)).last_failure_time =
        ts.getLast?) := by
  constructor
  · intro hlt
    exact (recordFailures_closed_run ts (CircuitBreaker.new T tmo) rfl
      (by simpa [CircuitBreaker.new] using hlt) (by simpa [CircuitBreaker.new])).1
  · intro hlen
    rcases List.eq_nil_or_concat ts with hnil | ⟨l, t, rfl⟩
    · subst hnil; simp at hlen; omega
    · have hsplit : l.concat t = l ++ [t] := List.concat_eq_append l t
      rw [hsplit] at hlen ⊢
      rw [recordFailures_append]
      have hl : l.length + 1 = T := by simpa using hlen
      have hrun := recordFailures_closed_run l (CircuitBreaker.new T tmo) rfl
        (show (CircuitBreaker.new T tmo).failure_count + l.length <
            (CircuitBreaker.new T tmo).error_threshold by
          simp [CircuitBreaker.new]; omega)
        (show (CircuitBreaker.new T tmo).error_threshold < 2 ^ 32 by
          simpa [CircuitBreaker.new] using hT2)
      obtain ⟨r1, r2, r3⟩ := hrun
      have htrip := record_failure_closed_trip
        (recordFailures l (CircuitBreaker.new T tmo)) t r1
        (by rw [r2, r3]; simp [CircuitBreaker.new]; omega)
        (by rw [r3]; simpa [CircuitBreaker.new] using hT2)
      have hone : ∀ b : CircuitBreaker, recordFailures [t] b = b.record_failure t := by
        intro b
        simp [recordFailures]
      constructor
      · rw [hone, htrip]
      · rw [hone, htrip]
        simp

/-- Closed-state witness for C1: threshold 3, two failures leave the breaker
Closed, three failures open it with the last failure time recorded. -/
theorem breaker_opens_exactly_at_threshold_witness :
    (recordFailures [1, 2] (CircuitBreaker.new 3 5)).state = .Closed ∧
    ((recordFailures [1, 2, 3] (CircuitBreaker.new 3 5)).state = .Open ∧
     (recordFailures [1, 2, 3] (CircuitBreaker.new 3 5)).last_failure_time =
       ([1, 2, 3] : List ℚ).getLast?) :=
  ⟨(breaker_opens_exactly_at_threshold 3 5 [1, 2] (by decide) (by decide)).1
      (by decide),
   (breaker_opens_exactly_at_threshold 3 5 [1, 2, 3] (by decide) (by decide)).2
      (by decide)⟩

theorem recordSuccesses_add (m n : Nat) (b : CircuitBreaker) :
    recordSuccesses (n + m) b = recordSuccesses m (recordSuccesses n b) := by
  induction n generalizing b with
  | zero => simp [recordSuccesses]
  | succ n ih =>
    have h1 : n + 1 + m = (n + m) + 1 := by omega
    rw [h1]
    simp only [recordSuccesses]
    exact ih b.record_success

theorem recordSuccesses_closed (k : Nat) (b : CircuitBreaker)
    (h : b.state = .Closed) : (recordSuccesses k b).state = .Closed := by
  induction k generalizing b with
  | zero => simpa [recordSuccesses]
  | succ k ih =>
    simp only [recordSuccesses]
    exact ih _ (by simp [CircuitBreaker.record_success, h])

theorem record_success_half_open_step (b : CircuitBreaker)
    (h : b.state = .HalfOpen) (hm : b.half_open_max_requests = 3)
    (hc : b.success_count + 1 < 3) :
    b.record_success = { b with success_count := b.success_count + 1 } := by
  have hmod : u32Mod (b.success_count + 1) = b.success_count + 1 :=
    Nat.mod_eq_of_lt (lt_trans hc (by norm_num))
  have hcond : ¬ (3 ≤ b.success_count + 1) := by omega
  simp [CircuitBreaker.record_success, h, hm, hcond, hmod]

theorem record_success_half_open_close (b : CircuitBreaker)
    (h : b.state = .HalfOpen) (hm : b.half_open_max_requests = 3)
    (hc : b.success_count = 2) :
    b.record_success =
      { b with state := .Closed, failure_count := 0, success_count := 0,
               last_failure_time := none } := by
  have hmod : u32Mod (b.success_count + 1) = 3 := by
    rw [hc]
    norm_num [u32Mod]
  simp [CircuitBreaker.record_success, h, hm, hmod, transition_to_closed]

theorem recordSuccesses_half_open_run (k : Nat) (b : CircuitBreaker)
    (h : b.state = .HalfOpen) (hm : b.half_open_max_requests = 3)
    (hc : b.success_count + k < 3) :
    (recordSuccesses k b).state = .HalfOpen ∧
    (recordSuccesses k b).success_count = b.success_count + k ∧
    (recordSuccesses k b).half_open_max_requests = 3 := by
  induction k generalizing b with
  | zero => simp [recordSuccesses, h, hm]
  | succ k ih =>
    have hstep := record_success_half_open_step b h hm (by omega)
    simp only [recordSuccesses, hstep]
    obtain ⟨a1, a2, a3⟩ := ih { b with success_count := b.success_count + 1 }
      h (by simpa using hm) (by simp; omega)
    refine ⟨a1, ?_, a3⟩
    rw [a2]
    simp
    omega

/-- C2.  (i) In the `Open` state with `last_failure_time = some l`,
`allow_request now` returns `true` and transitions to `HalfOpen` with
`success_count = 0` exactly when at least `timeout` has elapsed since `l`;
otherwise it returns `false` and leaves the breaker unchanged (still
`Open`).  (ii) From `HalfOpen` with `success_count = 0` and the default
`half_open_max_requests = 3`, a run of `k` `record_success` calls ends in
the `Closed` state exactly when `k ≥ 3`. -/
theorem breaker_open_recovery (b : CircuitBreaker) (now l : ℚ)
    (hs : b.state = .Open) (hl : b.last_failure_time = some l)
    (c : CircuitBreaker) (k : Nat) (hcs : c.state = .HalfOpen)
    (hc0 : c.success_count = 0) (hcm : c.half_open_max_requests = 3) :
    ((b.timeout ≤ now - l →
        b.allow_request now = (true, transition_to_half_open b) ∧
        (transition_to_half_open b).state = .HalfOpen ∧
        (transition_to_half_open b).success_count = 0) ∧
     (now - l < b.timeout ∧ 0 ≤ now - l → b.allow_request now = (false, b))) ∧
    ((recordSuccesses k c).state = .Closed ↔ 3 ≤ k) := by
  refine ⟨⟨?_, ?_⟩, ?_⟩
  · intro ht
    have hmax : b.timeout ≤ max (now - l) 0 := le_trans ht (le_max_left _ _)
    simp [CircuitBreaker.allow_request, hs, hl, hmax, transition_to_half_open]
  · rintro ⟨ht, hnn⟩
    have hmax : ¬ (b.timeout ≤ max (now - l) 0) := by
      rw [max_eq_left hnn]
      exact not_le.mpr ht
    simp [CircuitBreaker.allow_request, hs, hl, hmax]
  · constructor
    · intro hclosed
      by_contra hk
      push_neg at hk
      have := (recordSuccesses_half_open_run k c hcs hcm (by omega)).1
      rw [hclosed] at this
      exact CircuitState.noConfusion this
    · intro hk
      obtain ⟨m, rfl⟩ : ∃ m, k = 3 + m := ⟨k - 3, by omega⟩
      rw [recordSuccesses_add]
      apply recordSuccesses_closed
      obtain ⟨r1, r2, r3⟩ := recordSuccesses_half_open_run 2 c hcs hcm (by omega)
      have h2 : recordSuccesses 3 c = (recordSuccesses 2 c).record_success := by
        have : (3 : Nat) = 2 + 1 := rfl
        rw [this, recordSuccesses_add]
        simp [recordSuccesses]
      rw [h2, record_success_half_open_close _ r1 r3 (by omega)]

/-- Witness for C2 at threshold 2, timeout 5: a tripped breaker at time 0
admits a request at time 6 (moving to HalfOpen), rejects at time 3, and
three successes close it while two do not. -/
theorem breaker_open_recovery_witness :
    ((recordFailures [0, 0] (CircuitBreaker.new 2 5)).allow_request 6 =
        (true, transition_to_half_open (recordFailures [0, 0] (CircuitBreaker.new 2 5))) ∧
      (recordFailures [0, 0] (CircuitBreaker.new 2 5)).allow_request 3 =
        (false, recordFailures [0, 0] (CircuitBreaker.new 2 5))) ∧
    ((recordSuccesses 3 (transition_to_half_open (recordFailures [0, 0] (CircuitBreaker.new 2 5)))).state = .Closed ∧
     ¬ (recordSuccesses 2 (transition_to_half_open (recordFailures [0, 0] (CircuitBreaker.new 2 5)))).state = .Closed) := by
  have h6 := breaker_open_recovery (recordFailures [0, 0] (CircuitBreaker.new 2 5))
    6 0 (by decide) (by decide)
    (transition_to_half_open (recordFailures [0, 0] (CircuitBreaker.new 2 5))) 3
    (by decide) (by decide) (by decide)
  have h3 := breaker_open_recovery (recordFailures [0, 0] (CircuitBreaker.new 2 5))
    3 0 (by decide) (by decide)
    (transition_to_half_open (recordFailures [0, 0] (CircuitBreaker.new 2 5))) 2
    (by decide) (by decide) (by decide)
  have htmo : (recordFailures [0, 0] (CircuitBreaker.new 2 5)).timeout = 5 := rfl
  refine ⟨⟨?_, ?_⟩, ?_, ?_⟩
  · exact (h6.1.1 (by rw [htmo]; norm_num)).1
  · exact h3.1.2 ⟨by rw [htmo]; norm_num, by norm_num⟩
  · exact h6.2.mpr (by norm_num)
  · intro hcl
    have := h3.2.mp hcl
    omega

/-! ### Token bucket and rate limiter (src/data-plane/src/rate_limiter.rs)

The spec describes the bucket as real-valued; its `f64` fields are
embedded as `ℚ`.  `Instant` timestamps are `ℚ` passed in as `now`;
`Instant` differences saturate at zero (`max _ 0`).
-/

structure TokenBucket where
  capacity : Nat
  tokens : ℚ
  refill_rate : ℚ
  last_refill : ℚ
deriving DecidableEq, Repr

def TokenBucket.new (requests_per_second burst : Nat) (now : ℚ) : TokenBucket :=
  { capacity := burst
    tokens := (burst : ℚ)
    refill_rate := (requests_per_second : ℚ)
    last_refill := now }

def TokenBucket.refill (now : ℚ) (b : TokenBucket) : TokenBucket :=
  let elapsed := max (now - b.last_refill) 0
  { b with tokens := min (b.tokens + elapsed * b.refill_rate) (b.capacity : ℚ),
           last_refill := now }

def TokenBucket.try_consume (now : ℚ) (n : Nat) (b : TokenBucket) :
    Bool × TokenBucket :=
  let b' := b.refill now
  if (n : ℚ) ≤ b'.tokens then (true, { b' with tokens := b'.tokens - (n : ℚ) })
  else (false, b')

/-- `available_tokens` refills, then truncates `tokens` toward zero
(`self.tokens as u64`); it returns the count and the refilled bucket. -/
def TokenBucket.available_tokens (now : ℚ) (b : TokenBucket) :
    Nat × TokenBucket :=
  let b' := b.refill now
  (b'.tokens.floor.toNat, b')

/-- An observation of the bucket: a `try_consume(n)` or an
`available_tokens` call at a given instant. -/
inductive BucketOp
  | consume (now : ℚ) (n : Nat)
  | observe (now : ℚ)

def applyBucketOp (op : BucketOp) (b : TokenBucket) : TokenBucket :=
  match op with
  | .consume now n => (b.try_consume now n).2
  | .observe now => (b.available_tokens now).2

def runBucketOps (ops : List BucketOp) (b : TokenBucket) : TokenBucket :=
  ops.foldl (fun b op => applyBucketOp op b) b

def BucketInv (b : TokenBucket) : Prop :=
  0 ≤ b.tokens ∧ b.tokens ≤ (b.capacity : ℚ)

theorem refill_inv (b : TokenBucket) (now : ℚ) (hrate : 0 ≤ b.refill_rate)
    (hinv : BucketInv b) : BucketInv (b.refill now) := by
  obtain ⟨h0, _⟩ := hinv
  unfold TokenBucket.refill BucketInv
  constructor
  · simp only []
    apply le_min
    · have : 0 ≤ max (now - b.last_refill) 0 * b.refill_rate :=
        mul_nonneg (le_max_right _ _) hrate
      linarith
    · positivity
  · simp [min_le_right]

theorem try_consume_snd (now : ℚ) (n : Nat) (b : TokenBucket) :
    (b.try_consume now n).2 =
      if (n : ℚ) ≤ (b.refill now).tokens then
        { b.refill now with tokens := (b.refill now).tokens - (n : ℚ) }
      else b.refill now := by
  unfold TokenBucket.try_consume
  by_cases hc : (n : ℚ) ≤ (b.refill now).tokens <;> simp [hc]

theorem refill_rate_capacity (now : ℚ) (b : TokenBucket) :
    (b.refill now).refill_rate = b.refill_rate ∧
    (b.refill now).capacity = b.capacity := by
  constructor <;> simp [TokenBucket.refill]

theorem applyBucketOp_inv (op : BucketOp) (b : TokenBucket)
    (hrate : 0 ≤ b.refill_rate) (hinv : BucketInv b) :
    BucketInv (applyBucketOp op b) ∧
    (applyBucketOp op b).refill_rate = b.refill_rate := by
  cases op with
  | consume now n =>
    obtain ⟨r0, r1⟩ := refill_inv b now hrate hinv
    obtain ⟨f1, f2⟩ := refill_rate_capacity now b
    simp only [applyBucketOp]
    rw [try_consume_snd]
    by_cases hc : (n : ℚ) ≤ (b.refill now).tokens
    · rw [if_pos hc]
      have hn : (0 : ℚ) ≤ (n : ℚ) := Nat.cast_nonneg n
      refine ⟨⟨?_, ?_⟩, ?_⟩
      · show (0 : ℚ) ≤ (b.refill now).tokens - (n : ℚ)
        linarith
      · show (b.refill now).tokens - (n : ℚ) ≤ ((b.refill now).capacity : ℚ)
        linarith
      · show (b.refill now).refill_rate = b.refill_rate
        exact f1
    · rw [if_neg hc]
      exact ⟨⟨r0, r1⟩, f1⟩
  | observe now =>
    exact ⟨refill_inv b now hrate hinv,
      (refill_rate_capacity now b).1⟩

/-- C4.  Starting from `TokenBucket::new(rps, burst)` at any creation time,
after any sequence of `try_consume` and `available_tokens` calls at
arbitrary instants, the token count satisfies `0 ≤ tokens ≤ capacity`:
refill clamps at `capacity` from above and `try_consume` subtracts only
when enough tokens are present.  Quantifying over all op lists covers
every observation point of every sequence. -/
theorem token_bucket_invariant (rps burst : Nat) (t0 : ℚ)
    (ops : List BucketOp) :
    0 ≤ (runBucketOps ops (TokenBucket.new rps burst t0)).tokens ∧
    (runBucketOps ops (TokenBucket.new rps burst t0)).tokens ≤
      ((runBucketOps ops (TokenBucket.new rps burst t0)).capacity : ℚ) := by
  have main : ∀ (l : List BucketOp) (b : TokenBucket), 0 ≤ b.refill_rate →
      BucketInv b → BucketInv (runBucketOps l b) := by
    intro l
    induction l with
    | nil => intro b _ hinv; simpa [runBucketOps] using hinv
    | cons op rest ih =>
      intro b hrate hinv
      have h1 : runBucketOps (op :: rest) b = runBucketOps rest (applyBucketOp op b) := by
        simp [runBucketOps]
      rw [h1]
      obtain ⟨hinv', hrate'⟩ := applyBucketOp_inv op b hrate hinv
      exact ih _ (by rw [hrate']; exact hrate) hinv'
  exact main ops (TokenBucket.new rps burst t0) (by simp [TokenBucket.new])
    ⟨by simp [TokenBucket.new], by simp [TokenBucket.new]⟩

/-! ### Rate limiter -/

structure RateLimiter where
  global_limiter : TokenBucket
  per_connection_limiters : List (String × TokenBucket)
  per_connection_limit : Option (Nat × Nat)
  cleanup_interval : ℚ
  last_cleanup : ℚ
deriving Repr

def RateLimiter.new (global_rps global_burst : Nat) (now : ℚ) : RateLimiter :=
  { global_limiter := TokenBucket.new global_rps global_burst now
    per_connection_limiters := []
    per_connection_limit := none
    cleanup_interval := 60
    last_cleanup := now }

def RateLimiter.with_per_connection_limit (rps burst : Nat) (r : RateLimiter) :
    RateLimiter :=
  { r with per_connection_limit := some (rps, burst) }

/-- `retain(|_, limiter| limiter.available_tokens() < limiter.capacity)`:
each bucket is refilled by the `available_tokens` probe; full (idle)
buckets are dropped, the rest are kept in their refilled state. -/
def RateLimiter.cleanup_old_limiters (now : ℚ) (r : RateLimiter) : RateLimiter :=
  if max (now - r.last_cleanup) 0 < r.cleanup_interval then r
  else
    { r with
      per_connection_limiters := r.per_connection_limiters.filterMap
        (fun p =>
          let probe := p.2.available_tokens now
          if probe.1 < probe.2.capacity then some (p.1, probe.2) else none),
      last_cleanup := now }

def RateLimiter.allow_request (now : ℚ) (connection_id : Option String)
    (r : RateLimiter) : Bool × RateLimiter :=
  let g := r.global_limiter.try_consume now 1
  if !g.1 then (false, { r with global_limiter := g.2 })
  else
    match r.per_connection_limit, connection_id with
    | some (rps, burst), some conn_id =>
      let bucket :=
        match lookupKV r.per_connection_limiters conn_id with
        | some b => b
        | none => TokenBucket.new rps burst now
      let c := bucket.try_consume now 1
      let r' := { r with global_limiter := g.2,
                         per_connection_limiters :=
                           insertKV conn_id c.2 r.per_connection_limiters }
      if !c.1 then (false, r')
      else (true, r'.cleanup_old_limiters now)
    | _, _ => (true, ({ r with global_limiter := g.2 }).cleanup_old_limiters now)

set_option maxHeartbeats 2000000 in
/-- C3.  (i) If the global bucket rejects, `allow_request` returns `false`
and the per-client bucket map is left exactly as it was (no per-client
bucket is read, created, refilled or consumed), and the per-client policy
is untouched.  (ii) If the global bucket admits but the per-client bucket
rejects, the call returns `false` with the global bucket left in its
consumed state: its token count is the refilled count minus one, so the
failed attempt still costs one global token. -/
theorem rate_limiter_global_first (r : RateLimiter) (now : ℚ)
    (cid : String) (rps burst : Nat) :
    ((r.global_limiter.try_consume now 1).1 = false →
      ∀ conn, (r.allow_request now conn).1 = false ∧
        (r.allow_request now conn).2.per_connection_limiters =
          r.per_connection_limiters ∧
        (r.allow_request now conn).2.per_connection_limit =
          r.per_connection_limit) ∧
    ((r.global_limiter.try_consume now 1).1 = true →
      r.per_connection_limit = some (rps, burst) →
      ∀ bucket, (match lookupKV r.per_connection_limiters cid with
                 | some b => b
                 | none => TokenBucket.new rps burst now) = bucket →
      (bucket.try_consume now 1).1 = false →
      (r.allow_request now (some cid)).1 = false ∧
      (r.allow_request now (some cid)).2.global_limiter =
        (r.global_limiter.try_consume now 1).2 ∧
      (r.allow_request now (some cid)).2.global_limiter.tokens =
        (r.global_limiter.refill now).tokens - 1) := by
  constructor
  · intro hg conn
    simp [RateLimiter.allow_request, hg]
  · intro hg hpol bucket hbucket hreject
    have hg2 : (r.global_limiter.try_consume now 1).2.tokens =
        (r.global_limiter.refill now).tokens - 1 := by
      unfold TokenBucket.try_consume at hg ⊢
      by_cases hc : (1 : ℚ) ≤ (r.global_limiter.refill now).tokens
      · simp [Nat.cast_one, hc]
      · simp [Nat.cast_one, hc] at hg
    simp only [RateLimiter.allow_request, hg, hpol, Bool.not_true, Bool.false_eq_true,
      if_false, hbucket, hreject, Bool.not_false, if_true]
    exact ⟨trivial, trivial, hg2⟩

/-- A rate limiter whose global bucket has zero burst capacity, with one
tracked per-client bucket. -/
def rlW1 : RateLimiter :=
  { RateLimiter.new 5 0 0 with
      per_connection_limiters := [("A", TokenBucket.new 1 1 0)] }

/-- A rate limiter with a full global bucket and a zero-capacity
per-client policy. -/
def rlW2 : RateLimiter := (RateLimiter.new 5 10 0).with_per_connection_limit 0 0

/-- Witness for C3: a zero-capacity global bucket rejects without touching
a nonempty per-client map; a full global bucket with a zero-capacity
per-client policy rejects the client but keeps the consumed global token. -/
theorem rate_limiter_global_first_witness :
    ((rlW1.allow_request 0 (some "A")).1 = false ∧
     (rlW1.allow_request 0 (some "A")).2.per_connection_limiters =
       rlW1.per_connection_limiters) ∧
    ((rlW2.allow_request 0 (some "A")).1 = false ∧
     (rlW2.allow_request 0 (some "A")).2.global_limiter.tokens =
       (rlW2.global_limiter.refill 0).tokens - 1) := by
  have hg1 : (rlW1.global_limiter.try_consume 0 1).1 = false := by
    norm_num [rlW1, RateLimiter.new, TokenBucket.new, TokenBucket.try_consume,
      TokenBucket.refill]
  have h1 := (rate_limiter_global_first rlW1 0 "A" 0 0).1 hg1 (some "A")
  have hg2 : (rlW2.global_limiter.try_consume 0 1).1 = true := by
    norm_num [rlW2, RateLimiter.new, RateLimiter.with_per_connection_limit,
      TokenBucket.new, TokenBucket.try_consume, TokenBucket.refill]
  have hb2 : ((TokenBucket.new 0 0 0).try_consume 0 1).1 = false := by
    norm_num [TokenBucket.new, TokenBucket.try_consume, TokenBucket.refill]
  have h2 := (rate_limiter_global_first rlW2 0 "A" 0 0).2 hg2 rfl
    (TokenBucket.new 0 0 0) rfl hb2
  exact ⟨⟨h1.1, h1.2.1⟩, h2.1, h2.2.2⟩

/-! ### Load balancer (src/data-plane/src/load_balancer.rs)

Backends carry an `i32` weight and an atomic `u64` connection counter.
`i32` arithmetic wraps (`wrap32`); the round-robin counter is a `usize`
cast `as i32` before the modulo (`usizeToI32`); Rust's `%` on `i32` is
truncated remainder (`Int.tmod`).
-/

structure Backend where
  address : String
  weight : Int
  healthy : Bool
deriving DecidableEq, Repr

structure BackendWithStats where
  backend : Backend
  active_connections : Nat
deriving DecidableEq, Repr

/-- A `usize` value truncated and reinterpreted by `as i32`. -/
def usizeToI32 (n : Nat) : Int :=
  if n % 2 ^ 32 < 2 ^ 31 then ((n % 2 ^ 32 : Nat) : Int)
  else ((n % 2 ^ 32 : Nat) : Int) - 2 ^ 32

/-- Wrapping `i32` addition result (two's complement). -/
def wrap32 (x : Int) : Int := (x + 2 ^ 31) % 2 ^ 32 - 2 ^ 31

def rrSelect (healthy : List Backend) (counter : Nat) : Option Backend :=
  if healthy.isEmpty then none
  else healthy.get? (counter % healthy.length)

def totalWeight (healthy : List Backend) : Int :=
  healthy.foldl (fun acc b => wrap32 (acc + b.weight)) 0

def wrrScan : List Backend → Int → Int → Option Backend
  | [], _, _ => none
  | b :: t, cumulative, k =>
    let c' := wrap32 (cumulative + b.weight)
    if k < c' then some b else wrrScan t c' k

/-- `weighted_round_robin` on the healthy subset, with `counter` the value
the shared round-robin counter would yield to its first `fetch_add`; the
unreachable fallthrough calls `round_robin`, which performs a second
`fetch_add`, hence `counter + 1`. -/
def wrrSelect (healthy : List Backend) (counter : Nat) : Option Backend :=
  if healthy.isEmpty then none
  else
    let total := totalWeight healthy
    if total = 0 then rrSelect healthy counter
    else
      let k := (usizeToI32 counter).tmod total
      match wrrScan healthy 0 k with
      | some b => some b
      | none => rrSelect healthy (counter + 1)

/-- Follows the spec's words for C5: the plain (unwrapped) sum of the
healthy backends' weights. -/
def plainWeightSum (healthy : List Backend) : Int :=
  (healthy.map (fun b => b.weight)).sum

/-- Follows the spec's words for C5: the first backend in healthy-subset
order whose cumulative weight strictly exceeds `k`. -/
def firstCumExceeding : List Backend → Int → Int → Option Backend
  | [], _, _ => none
  | b :: t, acc, k =>
    if k < acc + b.weight then some b else firstCumExceeding t (acc + b.weight) k

def bX : Backend := { address := "x", weight := 1, healthy := true }

def bY : Backend := { address := "y", weight := 1, healthy := true }

def bZ : Backend := { address := "z", weight := 1, healthy := true }

/-- C5 counterexample.  With three healthy backends of weight 1 and the
counter at `2^31`, the `as i32` cast makes the code's remainder negative
(`(-2^31).tmod 3 = -2`), so the scan returns the first backend `x`,
while the claim's `k = 2^31 mod 3 = 2` selects the third backend `z`:
the claim's formula disagrees with the code at this input. -/
theorem weighted_rr_counterexample :
    plainWeightSum [bX, bY, bZ] = 3 ∧
    (2 ^ 31 : Nat) % 3 = 2 ∧
    wrrSelect [bX, bY, bZ] (2 ^ 31) = some bX ∧
    firstCumExceeding [bX, bY, bZ] 0 2 = some bZ ∧
    wrrSelect [bX, bY, bZ] (2 ^ 31) ≠
      firstCumExceeding [bX, bY, bZ] 0
        (((2 ^ 31 : Nat) : Int) % plainWeightSum [bX, bY, bZ]) := by
  decide

theorem wrap32_eq_self (x : Int) (h1 : -(2 ^ 31) ≤ x) (h2 : x < 2 ^ 31) :
    wrap32 x = x := by
  unfold wrap32
  omega

theorem plainWeightSum_nonneg (l : List Backend)
    (h : ∀ b ∈ l, 0 ≤ b.weight) : 0 ≤ plainWeightSum l := by
  induction l with
  | nil => simp [plainWeightSum]
  | cons b t ih =>
    have hb := h b (List.mem_cons_self b t)
    have ht := ih (fun e he => h e (List.mem_cons_of_mem b he))
    simp only [plainWeightSum, List.map_cons, List.sum_cons] at *
    omega

theorem totalWeight_go (l : List Backend) (acc : Int)
    (hge : ∀ b ∈ l, 0 ≤ b.weight) (h0 : 0 ≤ acc)
    (hlt : acc + plainWeightSum l < 2 ^ 31) :
    l.foldl (fun acc b => wrap32 (acc + b.weight)) acc =
      acc + plainWeightSum l := by
  induction l generalizing acc with
  | nil => simp [plainWeightSum]
  | cons b t ih =>
    have hb := hge b (List.mem_cons_self b t)
    have ht : ∀ e ∈ t, 0 ≤ e.weight := fun e he => hge e (List.mem_cons_of_mem b he)
    have htsum := plainWeightSum_nonneg t ht
    have hsum_cons : plainWeightSum (b :: t) = b.weight + plainWeightSum t := by
      simp [plainWeightSum]
    rw [hsum_cons] at hlt
    have hw : wrap32 (acc + b.weight) = acc + b.weight :=
      wrap32_eq_self _ (by omega) (by omega)
    simp only [List.foldl_cons, hw]
    rw [ih (acc + b.weight) ht (by omega) (by omega), hsum_cons]
    ring

theorem totalWeight_eq_plain (l : List Backend)
    (hge : ∀ b ∈ l, 0 ≤ b.weight) (hlt : plainWeightSum l < 2 ^ 31) :
    totalWeight l = plainWeightSum l := by
  have := totalWeight_go l 0 hge le_rfl (by omega)
  simpa [totalWeight] using this

theorem wrrScan_eq_firstCum (l : List Backend) (acc k : Int)
    (hge : ∀ b ∈ l, 0 ≤ b.weight) (h0 : 0 ≤ acc)
    (hlt : acc + plainWeightSum l < 2 ^ 31) :
    wrrScan l acc k = firstCumExceeding l acc k := by
  induction l generalizing acc with
  | nil => rfl
  | cons b t ih =>
    have hb := hge b (List.mem_cons_self b t)
    have ht : ∀ e ∈ t, 0 ≤ e.weight := fun e he => hge e (List.mem_cons_of_mem b he)
    have htsum := plainWeightSum_nonneg t ht
    have hsum_cons : plainWeightSum (b :: t) = b.weight + plainWeightSum t := by
      simp [plainWeightSum]
    rw [hsum_cons] at hlt
    have hw : wrap32 (acc + b.weight) = acc + b.weight :=
      wrap32_eq_self _ (by omega) (by omega)
    simp only [wrrScan, firstCumExceeding, hw]
    by_cases hk : k < acc + b.weight
    · simp [hk]
    · simp only [hk, if_false]
      exact ih (acc + b.weight) ht (by omega) (by omega)

theorem firstCum_isSome (l : List Backend) (acc k : Int)
    (hlow : acc ≤ k) (hk : k < acc + plainWeightSum l) :
    ∃ b, firstCumExceeding l acc k = some b := by
  induction l generalizing acc with
  | nil =>
    simp only [plainWeightSum, List.map_nil, List.sum_nil, add_zero] at hk
    omega
  | cons b t ih =>
    have hsum_cons : plainWeightSum (b :: t) = b.weight + plainWeightSum t := by
      simp [plainWeightSum]
    rw [hsum_cons] at hk
    by_cases hb : k < acc + b.weight
    · exact ⟨b, by simp [firstCumExceeding, hb]⟩
    · have := ih (acc + b.weight) (by omega) (by omega)
      obtain ⟨c, hc⟩ := this
      exact ⟨c, by simp [firstCumExceeding, hb, hc]⟩

theorem usizeToI32_small (n : Nat) (h : n < 2 ^ 31) : usizeToI32 n = (n : Int) := by
  have h2 : n % 2 ^ 32 = n := Nat.mod_eq_of_lt (by omega)
  unfold usizeToI32
  rw [h2, if_pos h]

/-- C5 amended.  For a non-empty healthy subset with non-negative weights,
a weight sum below `2^31` (no `i32` overflow), and a fetched counter
below `2^31` (no `as i32` sign flip), `weighted_round_robin` falls back
to `round_robin` when the weight sum is 0, and otherwise selects the
first backend in healthy-subset order whose cumulative weight strictly
exceeds `counter mod (weight sum)`. -/
theorem weighted_rr_amended (healthy : List Backend) (counter : Nat)
    (hne : healthy ≠ [])
    (hw : ∀ b ∈ healthy, 0 ≤ b.weight)
    (hsum : plainWeightSum healthy < 2 ^ 31)
    (hctr : counter < 2 ^ 31) :
    (plainWeightSum healthy = 0 →
      wrrSelect healthy counter = rrSelect healthy counter) ∧
    (plainWeightSum healthy ≠ 0 →
      wrrSelect healthy counter =
        firstCumExceeding healthy 0 ((counter : Int) % plainWeightSum healthy)) := by
  have htw := totalWeight_eq_plain healthy hw hsum
  have hemp : ¬ (healthy.isEmpty = true) := by
    simpa [List.isEmpty_iff] using hne
  constructor
  · intro h0
    unfold wrrSelect
    rw [if_neg hemp]
    simp only [htw, h0, if_pos]
  · intro hS0
    have hSpos : 0 < plainWeightSum healthy :=
      lt_of_le_of_ne (plainWeightSum_nonneg _ hw) (Ne.symm hS0)
    have hk : (usizeToI32 counter).tmod (plainWeightSum healthy) =
        (counter : Int) % plainWeightSum healthy := by
      rw [usizeToI32_small counter hctr]
      exact Int.tmod_eq_emod (by positivity) (le_of_lt hSpos)
    have hk0 : 0 ≤ (counter : Int) % plainWeightSum healthy :=
      Int.emod_nonneg _ (ne_of_gt hSpos)
    have hklt : (counter : Int) % plainWeightSum healthy < plainWeightSum healthy :=
      Int.emod_lt_of_pos _ hSpos
    have hscan := wrrScan_eq_firstCum healthy 0
      ((counter : Int) % plainWeightSum healthy) hw le_rfl (by omega)
    obtain ⟨bsel, hb⟩ := firstCum_isSome healthy 0
      ((counter : Int) % plainWeightSum healthy) hk0 (by omega)
    unfold wrrSelect
    rw [if_neg hemp]
    simp only [hk, htw, if_neg hS0, hscan, hb]

/-- Witness for C5 amended: three weight-1 backends, counter 4: the sum is
3 ≠ 0 and the code selects the backend whose cumulative weight first
exceeds 4 mod 3 = 1, namely `y`; with all weights zeroed the weighted
path degenerates to round robin. -/
theorem weighted_rr_amended_witness :
    (plainWeightSum [bX, bY, bZ] ≠ 0 ∧
      wrrSelect [bX, bY, bZ] 4 =
        firstCumExceeding [bX, bY, bZ] 0 ((4 : Int) % plainWeightSum [bX, bY, bZ]) ∧
      wrrSelect [bX, bY, bZ] 4 = some bY) ∧
    (plainWeightSum [{ bX with weight := 0 }] = 0 ∧
      wrrSelect [{ bX with weight := 0 }] 4 =
        rrSelect [{ bX with weight := 0 }] 4) := by
  refine ⟨⟨by decide, ?_, by decide⟩, by decide, ?_⟩
  · exact (weighted_rr_amended [bX, bY, bZ] 4 (by decide) (by decide)
      (by decide) (by decide)).2 (by decide)
  · exact (weighted_rr_amended [{ bX with weight := 0 }] 4 (by decide)
      (by decide) (by decide) (by decide)).1 (by decide)

/-! ### Connection counting and least-connections selection -/

def lookupConnections (addr : String) : List BackendWithStats → Option Nat
  | [] => none
  | b :: t =>
    if b.backend.address = addr then some b.active_connections
    else lookupConnections addr t

/-- `increment_connections`: `fetch_add(1)` on the first matching backend
(the scan breaks after the first address match). -/
def increment_connections (addr : String) :
    List BackendWithStats → List BackendWithStats
  | [] => []
  | b :: t =>
    if b.backend.address = addr then
      { b with active_connections := u64Add b.active_connections 1 } :: t
    else b :: increment_connections addr t

/-- `decrement_connections`: wrapping `fetch_sub(1)` on the first matching
backend. -/
def decrement_connections (addr : String) :
    List BackendWithStats → List BackendWithStats
  | [] => []
  | b :: t =>
    if b.backend.address = addr then
      { b with active_connections := u64Sub1 b.active_connections } :: t
    else b :: decrement_connections addr t

/-- `update_backends`: replace the vector; all counters reset to zero. -/
def update_backends (bs : List Backend) : List BackendWithStats :=
  bs.map (fun b => { backend := b, active_connections := 0 })

/-- The `least_connections` scan: `min_connections` starts at `u64::MAX`,
strict `<` keeps the earliest minimum index. -/
def lcGo : List BackendWithStats → Nat → Nat → Nat → Nat
  | [], _, _, sel => sel
  | b :: t, idx, minC, sel =>
    if b.active_connections < minC then lcGo t (idx + 1) b.active_connections idx
    else lcGo t (idx + 1) minC sel

def least_connections (healthy : List BackendWithStats) : Option Backend :=
  if healthy.isEmpty then none
  else (healthy.get? (lcGo healthy 0 (2 ^ 64 - 1) 0)).map (fun b => b.backend)

theorem lcGo_all_ge (l : List BackendWithStats) (idx minC sel : Nat)
    (h : ∀ b ∈ l, minC ≤ b.active_connections) : lcGo l idx minC sel = sel := by
  induction l generalizing idx with
  | nil => rfl
  | cons b t ih =>
    have hb : ¬ (b.active_connections < minC) :=
      not_lt.mpr (h b (List.mem_cons_self b t))
    simp only [lcGo, hb, if_false]
    exact ih (idx + 1) (fun e he => h e (List.mem_cons_of_mem b he))

theorem lcGo_finds_lt (l : List BackendWithStats) (idx minC sel : Nat)
    (h : ∃ b ∈ l, b.active_connections < minC) :
    ∃ j, j < l.length ∧ lcGo l idx minC sel = idx + j ∧
      ∃ e, l.get? j = some e ∧ e.active_connections < minC := by
  induction l generalizing idx minC sel with
  | nil => simp at h
  | cons b t ih =>
    by_cases hb : b.active_connections < minC
    · by_cases ht : ∃ e ∈ t, e.active_connections < b.active_connections
      · obtain ⟨j, hj, hgo, e, he, hlt⟩ := ih (idx + 1) b.active_connections idx ht
        refine ⟨j + 1, by simp; omega, ?_, e, by simpa using he, lt_trans hlt hb⟩
        simp only [lcGo, hb, if_true]
        rw [hgo]
        omega
      · push_neg at ht
        have hstop := lcGo_all_ge t (idx + 1) b.active_connections idx ht
        exact ⟨0, by simp, by simp [lcGo, hb, hstop], b, by simp, hb⟩
    · obtain ⟨e0, he0, hlt0⟩ := h
      have he0t : e0 ∈ t := by
        rcases List.mem_cons.mp he0 with rfl | ht
        · exact absurd hlt0 hb
        · exact ht
      obtain ⟨j, hj, hgo, e, he, hlt⟩ := ih (idx + 1) minC sel ⟨e0, he0t, hlt0⟩
      refine ⟨j + 1, by simp; omega, ?_, e, by simpa using he, hlt⟩
      simp only [lcGo, hb, if_false]
      rw [hgo]
      omega

/-- C10.  (i) `decrement_connections` on a backend whose counter is 0
wraps it to `2^64 - 1`.  (ii) `update_backends` resets every counter to
zero.  (iii) `least_connections` always selects a backend whose counter
is below `2^64 - 1` whenever any healthy backend has one, so a
wrapped-to-`u64::MAX` backend is never selected while another healthy
backend has a smaller count. -/
theorem lb_decrement_wraps :
    (∀ (l : List BackendWithStats) (addr : String),
        lookupConnections addr l = some 0 →
        lookupConnections addr (decrement_connections addr l) =
          some (2 ^ 64 - 1)) ∧
    (∀ (bs : List Backend), ∀ e ∈ update_backends bs,
        e.active_connections = 0) ∧
    (∀ (healthy : List BackendWithStats),
        (∃ e ∈ healthy, e.active_connections < 2 ^ 64 - 1) →
        ∃ e ∈ healthy, least_connections healthy = some e.backend ∧
          e.active_connections < 2 ^ 64 - 1) := by
  refine ⟨?_, ?_, ?_⟩
  · intro l addr h
    induction l with
    | nil => simp [lookupConnections] at h
    | cons b t ih =>
      by_cases hb : b.backend.address = addr
      · simp only [lookupConnections, hb, if_true, Option.some.injEq] at h
        simp only [decrement_connections, hb, if_true, lookupConnections,
          Option.some.injEq]
        rw [h]
        norm_num [u64Sub1]
      · simp only [lookupConnections, hb, if_false] at h
        simp only [decrement_connections, hb, if_false, lookupConnections]
        exact ih h
  · intro bs e he
    simp only [update_backends, List.mem_map] at he
    obtain ⟨b, _, rfl⟩ := he
    rfl
  · intro healthy hex
    have hne : healthy ≠ [] := by
      obtain ⟨e, he, _⟩ := hex
      exact List.ne_nil_of_mem he
    have hemp : ¬ (healthy.isEmpty = true) := by
      simpa [List.isEmpty_iff] using hne
    obtain ⟨j, hj, hgo, e, he, hlt⟩ :=
      lcGo_finds_lt healthy 0 (2 ^ 64 - 1) 0 hex
    refine ⟨e, List.get?_mem he, ?_, hlt⟩
    unfold least_connections
    rw [if_neg hemp, hgo]
    simp only [Nat.zero_add]
    simp [List.get?_eq_getElem?] at he
    simp [he]

/-- Witness for C10: two fresh backends; decrementing `x` at count 0 wraps
it to `u64::MAX`, and `least_connections` then picks `y`. -/
theorem lb_decrement_wraps_witness :
    lookupConnections "x" (update_backends [bX, bY]) = some 0 ∧
    lookupConnections "x"
        (decrement_connections "x" (update_backends [bX, bY])) =
      some (2 ^ 64 - 1) ∧
    (∃ e ∈ decrement_connections "x" (update_backends [bX, bY]),
      least_connections (decrement_connections "x" (update_backends [bX, bY])) =
        some e.backend ∧ e.active_connections < 2 ^ 64 - 1) := by
  refine ⟨by decide, ?_, ?_⟩
  · exact lb_decrement_wraps.1 (update_backends [bX, bY]) "x" (by decide)
  · exact lb_decrement_wraps.2.2
      (decrement_connections "x" (update_backends [bX, bY]))
      ⟨{ backend := bY, active_connections := 0 }, by decide, by decide⟩

/-! ### UDP NAT/session engine (src/data-plane/src/udp_proxy.rs)

`DashMap` contents are modelled as association lists.  Socket addresses
and map keys are `String`s.  Backend selection and address parsing are
parameters of the packet handler; a `parse` result of `none` models the
`.expect` panic aborting the spawned handler task before any insertion.
-/

structure UdpSession where
  backend_addr : String
  backend_socket_addr : String
  client_addr : String
  last_activity : ℚ
  bytes_sent : Nat
  bytes_received : Nat
  packets_sent : Nat
  packets_received : Nat
deriving DecidableEq, Repr

def UdpSession.new (backend_addr backend_socket_addr client_addr : String)
    (now : ℚ) : UdpSession :=
  { backend_addr := backend_addr
    backend_socket_addr := backend_socket_addr
    client_addr := client_addr
    last_activity := now
    bytes_sent := 0
    bytes_received := 0
    packets_sent := 0
    packets_received := 0 }

def UdpSession.record_sent (bytes : Nat) (now : ℚ) (s : UdpSession) : UdpSession :=
  { s with bytes_sent := u64Add s.bytes_sent bytes,
           packets_sent := u64Add s.packets_sent 1,
           last_activity := now }

def UdpSession.record_received (bytes : Nat) (now : ℚ) (s : UdpSession) : UdpSession :=
  { s with bytes_received := u64Add s.bytes_received bytes,
           packets_received := u64Add s.packets_received 1,
           last_activity := now }

def sessionTimeout : ℚ := 60

structure UdpState where
  sessions : List (String × UdpSession)
  reverse_sessions : List (String × String)
deriving DecidableEq, Repr

/-- Backend branch: the sender is a known backend socket; look up the
client's session, record received bytes, forward to the client.  A
missing session drops the datagram without changes. -/
def udpBackendHit (fwdHit : Option UdpSession) (client_key : String)
    (len : Nat) (now : ℚ) (st : UdpState) : UdpState × Bool :=
  match fwdHit with
  | some sess =>
    ({ st with sessions :=
        insertKV client_key (sess.record_received len now) st.sessions }, true)
  | none => (st, false)

/-- New-client session creation: the parsed backend socket address (or a
parse failure, which kills the handler task with nothing inserted). -/
def udpClientMiss (parseResult : Option String) (ba peer : String) (len : Nat)
    (now : ℚ) (st : UdpState) : UdpState × Bool :=
  match parseResult with
  | none => (st, false)
  | some bsa =>
    let sess' := (UdpSession.new ba bsa peer now).record_sent len now
    ({ sessions := insertKV peer sess' st.sessions,
       reverse_sessions := insertKV bsa peer st.reverse_sessions }, true)

/-- Client branch: get-or-create the forward session, record sent bytes,
then (re-)insert the reverse entry. -/
def udpClientBranch (fwdHit : Option UdpSession) (selectAddr : Option String)
    (parse : String → Option String) (peer : String) (len : Nat) (now : ℚ)
    (st : UdpState) : UdpState × Bool :=
  match fwdHit with
  | some sess =>
    let sess' := sess.record_sent len now
    ({ sessions := insertKV peer sess' st.sessions,
       reverse_sessions :=
         insertKV sess'.backend_socket_addr peer st.reverse_sessions }, true)
  | none =>
    match selectAddr with
    | none => (st, false)
    | some ba => udpClientMiss (parse ba) ba peer len now st

/-- One received datagram.  The reverse table is consulted first; a miss
makes the sender a client.  The returned Bool is whether the datagram was
forwarded. -/
def handlePacket (selectAddr : Option String) (parse : String → Option String)
    (peer : String) (len : Nat) (now : ℚ) (st : UdpState) : UdpState × Bool :=
  match lookupKV st.reverse_sessions peer with
  | some client_key =>
    udpBackendHit (lookupKV st.sessions client_key) client_key len now st
  | none =>
    udpClientBranch (lookupKV st.sessions peer) selectAddr parse peer len now st

/-- Reaper removal of one key: `sessions.remove(&key)` then, if an entry
was removed, `reverse_sessions.remove(&session.backend_socket_addr)`. -/
def removeSession (k : String) (st : UdpState) : UdpState :=
  match lookupKV st.sessions k with
  | some sess =>
    { sessions := eraseKV k st.sessions,
      reverse_sessions := eraseKV sess.backend_socket_addr st.reverse_sessions }
  | none => st

def expiredKeys (now : ℚ) (st : UdpState) : List String :=
  (st.sessions.filter
    (fun p => decide (sessionTimeout < max (now - p.2.last_activity) 0))).map
    (fun p => p.1)

/-- One pass of the cleanup task: remove every expired session from both
tables. -/
def reaperStep (now : ℚ) (st : UdpState) : UdpState :=
  (expiredKeys now st).foldl (fun s k => removeSession k s) st

def udpStEmpty : UdpState := { sessions := [], reverse_sessions := [] }

def udpSt1 : UdpState :=
  (handlePacket (some "9.9.9.9:80") (fun s => some s) "10.0.0.1:1111" 3 0
    udpStEmpty).1

def udpSt2 : UdpState :=
  (handlePacket (some "9.9.9.9:80") (fun s => some s) "10.0.0.2:2222" 3 0
    udpSt1).1

/-- C6 counterexample.  Two distinct clients are assigned the same backend
socket address "9.9.9.9:80".  After the second client's datagram, the
first client's forward entry still names that backend socket, but the
single reverse entry for it was overwritten to point at the second
client: the forward entry has no reverse entry holding its key. -/
theorem udp_nat_counterexample :
    (lookupKV udpSt2.sessions "10.0.0.1:1111").map
        (fun s => s.backend_socket_addr) = some "9.9.9.9:80" ∧
    lookupKV udpSt2.reverse_sessions "9.9.9.9:80" = some "10.0.0.2:2222" ∧
    lookupKV udpSt2.reverse_sessions "9.9.9.9:80" ≠ some "10.0.0.1:1111" := by
  decide

/-- Forward/reverse consistency: every forward entry's backend socket maps
back to its client key, and every reverse entry is backed by a live
forward entry with that socket. -/
def FwdRevInv (st : UdpState) : Prop :=
  (∀ k s, lookupKV st.sessions k = some s →
    lookupKV st.reverse_sessions s.backend_socket_addr = some k) ∧
  (∀ bs k, lookupKV st.reverse_sessions bs = some k →
    ∃ s, lookupKV st.sessions k = some s ∧ s.backend_socket_addr = bs)

/-- No two live forward entries share a backend socket address. -/
def BackendInj (st : UdpState) : Prop :=
  ∀ k k' s s', lookupKV st.sessions k = some s →
    lookupKV st.sessions k' = some s' →
    s.backend_socket_addr = s'.backend_socket_addr → k = k'

theorem removeSession_inv (k : String) (st : UdpState)
    (hInv : FwdRevInv st) (hInj : BackendInj st) :
    FwdRevInv (removeSession k st) ∧ BackendInj (removeSession k st) := by
  obtain ⟨hFR, hRF⟩ := hInv
  unfold removeSession
  cases hk : lookupKV st.sessions k with
  | none => exact ⟨⟨hFR, hRF⟩, hInj⟩
  | some sess =>
    refine ⟨⟨?_, ?_⟩, ?_⟩
    · intro k₁ s₁ h₁
      have hne : k₁ ≠ k := by
        intro h
        rw [h, lookupKV_erase_self] at h₁
        exact Option.noConfusion h₁
      rw [lookupKV_erase_ne _ _ _ hne] at h₁
      have hbs : s₁.backend_socket_addr ≠ sess.backend_socket_addr := by
        intro h
        exact hne (hInj k₁ k s₁ sess h₁ hk h)
      rw [lookupKV_erase_ne _ _ _ hbs]
      exact hFR k₁ s₁ h₁
    · intro bs k₁ hb
      have hbs : bs ≠ sess.backend_socket_addr := by
        intro h
        rw [h, lookupKV_erase_self] at hb
        exact Option.noConfusion hb
      rw [lookupKV_erase_ne _ _ _ hbs] at hb
      obtain ⟨s₀, hs₀, hbs₀⟩ := hRF bs k₁ hb
      have hne : k₁ ≠ k := by
        intro h
        rw [h, hk] at hs₀
        have hs : s₀ = sess := (Option.some.inj hs₀).symm
        rw [hs] at hbs₀
        exact hbs hbs₀.symm
      exact ⟨s₀, by rw [lookupKV_erase_ne _ _ _ hne]; exact hs₀, hbs₀⟩
    · intro k₁ k₂ s₁ s₂ h₁ h₂ hbs
      have hne₁ : k₁ ≠ k := by
        intro h
        rw [h, lookupKV_erase_self] at h₁
        exact Option.noConfusion h₁
      have hne₂ : k₂ ≠ k := by
        intro h
        rw [h, lookupKV_erase_self] at h₂
        exact Option.noConfusion h₂
      rw [lookupKV_erase_ne _ _ _ hne₁] at h₁
      rw [lookupKV_erase_ne _ _ _ hne₂] at h₂
      exact hInj k₁ k₂ s₁ s₂ h₁ h₂ hbs

theorem hp_dispatch_backend (st : UdpState) (sel : Option String)
    (parse : String → Option String) (peer : String) (len : Nat) (now : ℚ)
    (ck : String)
    (hrev : lookupKV st.reverse_sessions peer = some ck) :
    handlePacket sel parse peer len now st =
      udpBackendHit (lookupKV st.sessions ck) ck len now st := by
  unfold handlePacket
  rw [hrev]

theorem hp_dispatch_client (st : UdpState) (sel : Option String)
    (parse : String → Option String) (peer : String) (len : Nat) (now : ℚ)
    (hrev : lookupKV st.reverse_sessions peer = none) :
    handlePacket sel parse peer len now st =
      udpClientBranch (lookupKV st.sessions peer) sel parse peer len now st := by
  unfold handlePacket
  rw [hrev]

theorem hp_backend_hit (st : UdpState) (sel : Option String)
    (parse : String → Option String) (peer : String) (len : Nat) (now : ℚ)
    (ck : String) (sess : UdpSession)
    (hrev : lookupKV st.reverse_sessions peer = some ck)
    (hsess : lookupKV st.sessions ck = some sess) :
    (handlePacket sel parse peer len now st).1.sessions =
      insertKV ck (sess.record_received len now) st.sessions ∧
    (handlePacket sel parse peer len now st).1.reverse_sessions =
      st.reverse_sessions := by
  rw [hp_dispatch_backend st sel parse peer len now ck hrev, hsess]
  exact ⟨rfl, rfl⟩

theorem hp_backend_miss (st : UdpState) (sel : Option String)
    (parse : String → Option String) (peer : String) (len : Nat) (now : ℚ)
    (ck : String)
    (hrev : lookupKV st.reverse_sessions peer = some ck)
    (hsess : lookupKV st.sessions ck = none) :
    (handlePacket sel parse peer len now st).1 = st := by
  rw [hp_dispatch_backend st sel parse peer len now ck hrev, hsess]
  rfl

theorem hp_client_existing (st : UdpState) (sel : Option String)
    (parse : String → Option String) (peer : String) (len : Nat) (now : ℚ)
    (sess : UdpSession)
    (hrev : lookupKV st.reverse_sessions peer = none)
    (hsess : lookupKV st.sessions peer = some sess) :
    (handlePacket sel parse peer len now st).1.sessions =
      insertKV peer (sess.record_sent len now) st.sessions ∧
    (handlePacket sel parse peer len now st).1.reverse_sessions =
      insertKV sess.backend_socket_addr peer st.reverse_sessions := by
  rw [hp_dispatch_client st sel parse peer len now hrev, hsess]
  exact ⟨rfl, rfl⟩

theorem hp_new_client (st : UdpState) (parse : String → Option String)
    (peer ba bsa : String) (len : Nat) (now : ℚ)
    (hrev : lookupKV st.reverse_sessions peer = none)
    (hsess : lookupKV st.sessions peer = none)
    (hparse : parse ba = some bsa) :
    (handlePacket (some ba) parse peer len now st).1.sessions =
      insertKV peer ((UdpSession.new ba bsa peer now).record_sent len now)
        st.sessions ∧
    (handlePacket (some ba) parse peer len now st).1.reverse_sessions =
      insertKV bsa peer st.reverse_sessions := by
  rw [hp_dispatch_client st (some ba) parse peer len now hrev, hsess]
  show (udpClientMiss (parse ba) ba peer len now st).1.sessions = _ ∧
    (udpClientMiss (parse ba) ba peer len now st).1.reverse_sessions = _
  rw [hparse]
  exact ⟨rfl, rfl⟩

theorem hp_select_none (st : UdpState) (parse : String → Option String)
    (peer : String) (len : Nat) (now : ℚ)
    (hrev : lookupKV st.reverse_sessions peer = none)
    (hsess : lookupKV st.sessions peer = none) :
    (handlePacket none parse peer len now st).1 = st := by
  rw [hp_dispatch_client st none parse peer len now hrev, hsess]
  rfl

theorem hp_parse_none (st : UdpState) (parse : String → Option String)
    (peer ba : String) (len : Nat) (now : ℚ)
    (hrev : lookupKV st.reverse_sessions peer = none)
    (hsess : lookupKV st.sessions peer = none)
    (hparse : parse ba = none) :
    (handlePacket (some ba) parse peer len now st).1 = st := by
  rw [hp_dispatch_client st (some ba) parse peer len now hrev, hsess]
  show (udpClientMiss (parse ba) ba peer len now st).1 = st
  rw [hparse]
  rfl

theorem reaperFold_inv (ks : List String) (st : UdpState)
    (hInv : FwdRevInv st) (hInj : BackendInj st) :
    FwdRevInv (ks.foldl (fun s k => removeSession k s) st) ∧
    BackendInj (ks.foldl (fun s k => removeSession k s) st) := by
  induction ks generalizing st with
  | nil => exact ⟨hInv, hInj⟩
  | cons k rest ih =>
    obtain ⟨h1, h2⟩ := removeSession_inv k st hInv hInj
    simpa using ih (removeSession k st) h1 h2

set_option maxHeartbeats 1000000 in
/-- C6 amended.  Provided no two live forward entries ever share a backend
socket address (which the counterexample shows the code does not enforce
when the balancer assigns one backend to two clients), the NAT tables
stay consistent: (i) under the invariant, each forward entry's backend
socket has exactly one reverse entry, holding that entry's client key;
(ii) every packet-handling step preserves the invariant as long as a
newly created session's backend socket is not already used by a live
entry; (iii) reaper removal preserves the invariant and the
no-sharing condition. -/
theorem udp_nat_amended :
    (∀ st : UdpState, FwdRevInv st →
      ∀ k s, lookupKV st.sessions k = some s →
        lookupKV st.reverse_sessions s.backend_socket_addr = some k ∧
        ∀ bs', lookupKV st.reverse_sessions bs' = some k →
          bs' = s.backend_socket_addr) ∧
    (∀ (st : UdpState) (selectAddr : Option String)
        (parse : String → Option String) (peer : String) (len : Nat) (now : ℚ),
      FwdRevInv st →
      (∀ ba bsa, selectAddr = some ba → parse ba = some bsa →
        ∀ k s, lookupKV st.sessions k = some s →
          s.backend_socket_addr ≠ bsa) →
      FwdRevInv (handlePacket selectAddr parse peer len now st).1) ∧
    (∀ (st : UdpState) (now : ℚ), FwdRevInv st → BackendInj st →
      FwdRevInv (reaperStep now st) ∧ BackendInj (reaperStep now st)) := by
  refine ⟨?_, ?_, ?_⟩
  · rintro st ⟨hFR, hRF⟩ k s hks
    refine ⟨hFR k s hks, ?_⟩
    intro bs' hbs'
    obtain ⟨s₀, hs₀, hbs₀⟩ := hRF bs' k hbs'
    rw [hks] at hs₀
    rw [← hbs₀, Option.some.inj hs₀]
  · rintro st selectAddr parse peer len now ⟨hFR, hRF⟩ hfresh
    cases hrev : lookupKV st.reverse_sessions peer with
    | some ck =>
      cases hsess : lookupKV st.sessions ck with
      | none =>
        rw [show (handlePacket selectAddr parse peer len now st).1 = st from
          hp_backend_miss st selectAddr parse peer len now ck hrev hsess]
        exact ⟨hFR, hRF⟩
      | some sess =>
        obtain ⟨e1, e2⟩ := hp_backend_hit st selectAddr parse peer len now ck
          sess hrev hsess
        constructor
        · intro k s hks
          rw [e1] at hks
          rw [e2]
          by_cases hk : k = ck
          · subst hk
            rw [lookupKV_insert_self] at hks
            have hs : s = sess.record_received len now := (Option.some.inj hks).symm
            subst hs
            exact hFR k sess hsess
          · rw [lookupKV_insert_ne _ _ _ _ hk] at hks
            exact hFR k s hks
        · intro bs k hbk
          rw [e2] at hbk
          obtain ⟨s₀, hs₀, hbs₀⟩ := hRF bs k hbk
          by_cases hk : k = ck
          · subst hk
            rw [hsess] at hs₀
            have hse : s₀ = sess := (Option.some.inj hs₀).symm
            rw [hse] at hbs₀
            exact ⟨sess.record_received len now,
              by rw [e1]; exact lookupKV_insert_self _ _ _, hbs₀⟩
          · exact ⟨s₀,
              by rw [e1, lookupKV_insert_ne _ _ _ _ hk]; exact hs₀, hbs₀⟩
    | none =>
      cases hsess : lookupKV st.sessions peer with
      | some sess =>
        obtain ⟨e1, e2⟩ := hp_client_existing st selectAddr parse peer len now
          sess hrev hsess
        have hbsa : (sess.record_sent len now).backend_socket_addr =
            sess.backend_socket_addr := rfl
        constructor
        · intro k s hks
          rw [e1] at hks
          rw [e2]
          by_cases hk : k = peer
          · subst hk
            rw [lookupKV_insert_self] at hks
            have hs : s = sess.record_sent len now := (Option.some.inj hks).symm
            subst hs
            rw [hbsa]
            exact lookupKV_insert_self _ _ _
          · rw [lookupKV_insert_ne _ _ _ _ hk] at hks
            have hdiff : s.backend_socket_addr ≠ sess.backend_socket_addr := by
              intro h
              have h1 := hFR k s hks
              have h2 := hFR peer sess hsess
              rw [h] at h1
              rw [h1] at h2
              exact hk (Option.some.inj h2.symm).symm
            rw [lookupKV_insert_ne _ _ _ _ hdiff]
            exact hFR k s hks
        · intro bs k hbk
          rw [e2] at hbk
          by_cases hbs : bs = sess.backend_socket_addr
          · subst hbs
            rw [lookupKV_insert_self] at hbk
            have hkp : k = peer := (Option.some.inj hbk).symm
            subst hkp
            exact ⟨sess.record_sent len now,
              by rw [e1]; exact lookupKV_insert_self _ _ _, hbsa⟩
          · rw [lookupKV_insert_ne _ _ _ _ hbs] at hbk
            obtain ⟨s₀, hs₀, hbs₀⟩ := hRF bs k hbk
            by_cases hk : k = peer
            · subst hk
              rw [hsess] at hs₀
              have hse : s₀ = sess := (Option.some.inj hs₀).symm
              rw [hse] at hbs₀
              exact absurd hbs₀.symm hbs
            · exact ⟨s₀,
                by rw [e1, lookupKV_insert_ne _ _ _ _ hk]; exact hs₀, hbs₀⟩
      | none =>
        cases selectAddr with
        | none =>
          rw [show (handlePacket none parse peer len now st).1 = st from
            hp_select_none st parse peer len now hrev hsess]
          exact ⟨hFR, hRF⟩
        | some ba =>
          cases hparse : parse ba with
          | none =>
            rw [show (handlePacket (some ba) parse peer len now st).1 = st from
              hp_parse_none st parse peer ba len now hrev hsess hparse]
            exact ⟨hFR, hRF⟩
          | some bsa =>
            obtain ⟨e1, e2⟩ := hp_new_client st parse peer ba bsa len now hrev
              hsess hparse
            have hf : ∀ k s, lookupKV st.sessions k = some s →
                s.backend_socket_addr ≠ bsa := hfresh ba bsa rfl hparse
            constructor
            · intro k s hks
              rw [e1] at hks
              rw [e2]
              by_cases hk : k = peer
              · subst hk
                rw [lookupKV_insert_self] at hks
                have hs : s = (UdpSession.new ba bsa k now).record_sent len now :=
                  (Option.some.inj hks).symm
                subst hs
                exact lookupKV_insert_self _ _ _
              · rw [lookupKV_insert_ne _ _ _ _ hk] at hks
                have hdiff : s.backend_socket_addr ≠ bsa := hf k s hks
                rw [lookupKV_insert_ne _ _ _ _ hdiff]
                exact hFR k s hks
            · intro bs k hbk
              rw [e2] at hbk
              by_cases hbs : bs = bsa
              · subst hbs
                rw [lookupKV_insert_self] at hbk
                have hkp : k = peer := (Option.some.inj hbk).symm
                subst hkp
                exact ⟨(UdpSession.new ba bs k now).record_sent len now,
                  by rw [e1]; exact lookupKV_insert_self _ _ _, rfl⟩
              · rw [lookupKV_insert_ne _ _ _ _ hbs] at hbk
                obtain ⟨s₀, hs₀, hbs₀⟩ := hRF bs k hbk
                by_cases hk : k = peer
                · subst hk
                  rw [hsess] at hs₀
                  exact Option.noConfusion hs₀
                · exact ⟨s₀,
                    by rw [e1, lookupKV_insert_ne _ _ _ _ hk]; exact hs₀, hbs₀⟩
  · intro st now hInv hInj
    exact reaperFold_inv (expiredKeys now st) st hInv hInj

theorem udpStEmpty_inv : FwdRevInv udpStEmpty := by
  constructor
  · intro k s h
    simp [udpStEmpty, lookupKV] at h
  · intro bs k h
    simp [udpStEmpty, lookupKV] at h

/-- Witness for C6 amended: the invariant holds for the empty tables and
is preserved by the first client's packet (fresh backend socket). -/
theorem udp_nat_amended_witness :
    FwdRevInv udpStEmpty ∧ FwdRevInv udpSt1 :=
  ⟨udpStEmpty_inv,
   udp_nat_amended.2.1 udpStEmpty (some "9.9.9.9:80") (fun s => some s)
     "10.0.0.1:1111" 3 0 udpStEmpty_inv
     (by
       intro ba bsa _ _ k s h
       simp [udpStEmpty, lookupKV] at h)⟩

/-- C8.  When a datagram arrives from an unknown peer (a new client) and
the chosen backend's address fails to parse, the handler aborts with the
state untouched: no forward entry, no reverse entry, nothing forwarded. -/
theorem udp_parse_error_no_mutation (st : UdpState)
    (parse : String → Option String) (peer ba : String) (len : Nat) (now : ℚ)
    (hrev : lookupKV st.reverse_sessions peer = none)
    (hsess : lookupKV st.sessions peer = none)
    (hparse : parse ba = none) :
    handlePacket (some ba) parse peer len now st = (st, false) := by
  rw [hp_dispatch_client st (some ba) parse peer len now hrev, hsess]
  show udpClientMiss (parse ba) ba peer len now st = (st, false)
  rw [hparse]
  rfl

/-- Witness for C8 on the empty state with an unparseable backend
address. -/
theorem udp_parse_error_no_mutation_witness :
    handlePacket (some "not-an-addr") (fun _ => none) "10.0.0.1:1111" 7 0
      udpStEmpty = (udpStEmpty, false) :=
  udp_parse_error_no_mutation udpStEmpty (fun _ => none) "10.0.0.1:1111"
    "not-an-addr" 7 0 rfl rfl rfl

/-! ### TCP per-connection breaker events (src/data-plane/src/tcp_proxy.rs)

`handle_connection`'s calls to `circuit_breaker.record_success` /
`record_failure` for the chosen backend are abstracted as an event trace
over the session outcome: whether the backend connect succeeded and
whether a copy loop returned an I/O error.  The trace follows the code's
control flow: the connect `match` records success or failure (failure
returns early); a `select!` arm records a failure if its loop erred; and
then the epilogue after the `select!` records a success unconditionally. -/

inductive BreakerEvent
  | success
  | failure
deriving DecidableEq, Repr

def handleConnectionBreakerEvents (connectOk midSessionIoError : Bool) :
    List BreakerEvent :=
  if connectOk = false then [.failure]
  else
    [.success] ++ (if midSessionIoError then [.failure] else []) ++ [.success]

/-- C7.  A session that connects and closes cleanly records breaker
success exactly twice (connect, clean close), as the claim says — but a
session that hits a mid-session I/O error records the failure and then
STILL records a success at close: the final `record_success` after the
`select!` is unconditional (the error arms do not return), so the claim
that an erroring close records "a failure (not a success)" is violated
by the code; since the spec's §4.6 step 8 and the code's own
"Connection completed successfully" comment show the intent, this is a
code bug. -/
theorem tcp_breaker_event_trace :
    handleConnectionBreakerEvents true false = [.success, .success] ∧
    handleConnectionBreakerEvents false false = [.failure] ∧
    handleConnectionBreakerEvents true true = [.success, .failure, .success] ∧
    (handleConnectionBreakerEvents true true).count .success = 2 := by
  decide

/-! ### Metrics collector (src/data-plane/src/metrics.rs)

Atomic `u64` counters are `Nat`s updated modulo `2^64` (`fetch_add` /
`fetch_sub` wrap); the latency ring is a list of `ℚ` samples; the
per-backend map is an association list. -/

structure BackendMetrics where
  connections : Nat
  requests : Nat
  failures : Nat
  bytes_sent : Nat
  bytes_received : Nat
deriving DecidableEq, Repr

def BackendMetrics.new : BackendMetrics :=
  { connections := 0, requests := 0, failures := 0, bytes_sent := 0,
    bytes_received := 0 }

structure MetricsCollector where
  tcp_connections : Nat
  udp_sessions : Nat
  active_tcp_connections : Nat
  active_udp_sessions : Nat
  bytes_sent : Nat
  bytes_received : Nat
  packets_sent : Nat
  packets_received : Nat
  latency_samples : List ℚ
  backend_metrics : List (String × BackendMetrics)
  rate_limit_allowed : Nat
  rate_limit_denied : Nat
  circuit_breaker_open : Nat
  circuit_breaker_half_open : Nat
deriving DecidableEq, Repr

def MetricsCollector.new : MetricsCollector :=
  { tcp_connections := 0, udp_sessions := 0, active_tcp_connections := 0,
    active_udp_sessions := 0, bytes_sent := 0, bytes_received := 0,
    packets_sent := 0, packets_received := 0, latency_samples := [],
    backend_metrics := [], rate_limit_allowed := 0, rate_limit_denied := 0,
    circuit_breaker_open := 0, circuit_breaker_half_open := 0 }

/-- `entry(b).or_insert_with(BackendMetrics::new)` followed by a
`fetch_add` on one field. -/
def bumpBackend (f : BackendMetrics → BackendMetrics) (b : String)
    (m : List (String × BackendMetrics)) : List (String × BackendMetrics) :=
  insertKV b (f ((lookupKV m b).getD BackendMetrics.new)) m

/-- `record_latency`: push the sample, keep only the last 1000. -/
def MetricsCollector.record_latency (d : ℚ) (m : MetricsCollector) :
    MetricsCollector :=
  let samples := m.latency_samples ++ [d]
  { m with latency_samples :=
      if samples.length > 1000 then samples.drop (samples.length - 1000)
      else samples }

inductive MetricsOp
  | recordTcpConnection
  | closeTcpConnection
  | recordUdpSession
  | closeUdpSession
  | recordBytesSent (n : Nat)
  | recordBytesReceived (n : Nat)
  | recordPacketSent
  | recordPacketReceived
  | recordLatency (d : ℚ)
  | recordBackendRequest (b : String)
  | recordBackendConnection (b : String)
  | recordBackendFailure (b : String)
  | recordBackendBytesSent (b : String) (n : Nat)
  | recordBackendBytesReceived (b : String) (n : Nat)
  | recordRateLimitAllowed
  | recordRateLimitDenied
  | recordCircuitBreakerOpen
  | recordCircuitBreakerHalfOpen

def applyMetricsOp : MetricsOp → MetricsCollector → MetricsCollector
  | .recordTcpConnection, m =>
    { m with tcp_connections := u64Add m.tcp_connections 1,
             active_tcp_connections := u64Add m.active_tcp_connections 1 }
  | .closeTcpConnection, m =>
    { m with active_tcp_connections := u64Sub1 m.active_tcp_connections }
  | .recordUdpSession, m =>
    { m with udp_sessions := u64Add m.udp_sessions 1,
             active_udp_sessions := u64Add m.active_udp_sessions 1 }
  | .closeUdpSession, m =>
    { m with active_udp_sessions := u64Sub1 m.active_udp_sessions }
  | .recordBytesSent n, m => { m with bytes_sent := u64Add m.bytes_sent n }
  | .recordBytesReceived n, m =>
    { m with bytes_received := u64Add m.bytes_received n }
  | .recordPacketSent, m => { m with packets_sent := u64Add m.packets_sent 1 }
  | .recordPacketReceived, m =>
    { m with packets_received := u64Add m.packets_received 1 }
  | .recordLatency d, m => m.record_latency d
  | .recordBackendRequest b, m =>
    { m with backend_metrics :=
        (bumpBackend (fun v => { v with requests := u64Add v.requests 1 }) b
          m.backend_metrics) }
  | .recordBackendConnection b, m =>
    { m with backend_metrics :=
        (bumpBackend (fun v => { v with connections := u64Add v.connections 1 })
          b m.backend_metrics) }
  | .recordBackendFailure b, m =>
    { m with backend_metrics :=
        (bumpBackend (fun v => { v with failures := u64Add v.failures 1 }) b
          m.backend_metrics) }
  | .recordBackendBytesSent b n, m =>
    { m with backend_metrics :=
        (bumpBackend (fun v => { v with bytes_sent := u64Add v.bytes_sent n }) b
          m.backend_metrics) }
  | .recordBackendBytesReceived b n, m =>
    { m with backend_metrics :=
        (bumpBackend
          (fun v => { v with bytes_received := u64Add v.bytes_received n }) b
          m.backend_metrics) }
  | .recordRateLimitAllowed, m =>
    { m with rate_limit_allowed := u64Add m.rate_limit_allowed 1 }
  | .recordRateLimitDenied, m =>
    { m with rate_limit_denied := u64Add m.rate_limit_denied 1 }
  | .recordCircuitBreakerOpen, m =>
    { m with circuit_breaker_open := u64Add m.circuit_breaker_open 1 }
  | .recordCircuitBreakerHalfOpen, m =>
    { m with circuit_breaker_half_open := u64Add m.circuit_breaker_half_open 1 }

/-- C9 counterexample.  `close_tcp_connection` decrements the
`active_tcp_connections` atomic `u64` counter: after one open and one
close, the counter went from 1 down to 0, so not every counter of the
collector's public interface is non-decreasing. -/
theorem metrics_monotone_counterexample :
    (applyMetricsOp .closeTcpConnection
        (applyMetricsOp .recordTcpConnection
          MetricsCollector.new)).active_tcp_connections <
      (applyMetricsOp .recordTcpConnection
        MetricsCollector.new).active_tcp_connections := by
  decide

/-- Pointwise order on the collector's counters other than the two
`active_*` gauges (which close operations decrement), including every
per-backend counter. -/
def MonoCounters (m m' : MetricsCollector) : Prop :=
  m.tcp_connections ≤ m'.tcp_connections ∧
  m.udp_sessions ≤ m'.udp_sessions ∧
  m.bytes_sent ≤ m'.bytes_sent ∧
  m.bytes_received ≤ m'.bytes_received ∧
  m.packets_sent ≤ m'.packets_sent ∧
  m.packets_received ≤ m'.packets_received ∧
  m.rate_limit_allowed ≤ m'.rate_limit_allowed ∧
  m.rate_limit_denied ≤ m'.rate_limit_denied ∧
  m.circuit_breaker_open ≤ m'.circuit_breaker_open ∧
  m.circuit_breaker_half_open ≤ m'.circuit_breaker_half_open ∧
  (∀ k v, lookupKV m.backend_metrics k = some v →
    ∃ v', lookupKV m'.backend_metrics k = some v' ∧
      v.connections ≤ v'.connections ∧ v.requests ≤ v'.requests ∧
      v.failures ≤ v'.failures ∧ v.bytes_sent ≤ v'.bytes_sent ∧
      v.bytes_received ≤ v'.bytes_received)

/-- The `fetch_add` of the op stays below `2^64` (no wraparound). -/
def metricsNoOverflow : MetricsOp → MetricsCollector → Prop
  | .recordTcpConnection, m => m.tcp_connections + 1 < 2 ^ 64
  | .closeTcpConnection, _ => True
  | .recordUdpSession, m => m.udp_sessions + 1 < 2 ^ 64
  | .closeUdpSession, _ => True
  | .recordBytesSent n, m => m.bytes_sent + n < 2 ^ 64
  | .recordBytesReceived n, m => m.bytes_received + n < 2 ^ 64
  | .recordPacketSent, m => m.packets_sent + 1 < 2 ^ 64
  | .recordPacketReceived, m => m.packets_received + 1 < 2 ^ 64
  | .recordLatency _, _ => True
  | .recordBackendRequest b, m =>
    ∀ v, lookupKV m.backend_metrics b = some v → v.requests + 1 < 2 ^ 64
  | .recordBackendConnection b, m =>
    ∀ v, lookupKV m.backend_metrics b = some v → v.connections + 1 < 2 ^ 64
  | .recordBackendFailure b, m =>
    ∀ v, lookupKV m.backend_metrics b = some v → v.failures + 1 < 2 ^ 64
  | .recordBackendBytesSent b n, m =>
    ∀ v, lookupKV m.backend_metrics b = some v → v.bytes_sent + n < 2 ^ 64
  | .recordBackendBytesReceived b n, m =>
    ∀ v, lookupKV m.backend_metrics b = some v → v.bytes_received + n < 2 ^ 64
  | .recordRateLimitAllowed, m => m.rate_limit_allowed + 1 < 2 ^ 64
  | .recordRateLimitDenied, m => m.rate_limit_denied + 1 < 2 ^ 64
  | .recordCircuitBreakerOpen, m => m.circuit_breaker_open + 1 < 2 ^ 64
  | .recordCircuitBreakerHalfOpen, m => m.circuit_breaker_half_open + 1 < 2 ^ 64

theorem mapLe_refl (m : List (String × BackendMetrics)) :
    ∀ k v, lookupKV m k = some v →
      ∃ v', lookupKV m k = some v' ∧
        v.connections ≤ v'.connections ∧ v.requests ≤ v'.requests ∧
        v.failures ≤ v'.failures ∧ v.bytes_sent ≤ v'.bytes_sent ∧
        v.bytes_received ≤ v'.bytes_received :=
  fun _ v h => ⟨v, h, le_rfl, le_rfl, le_rfl, le_rfl, le_rfl⟩

theorem bumpBackend_le (f : BackendMetrics → BackendMetrics) (b : String)
    (mm : List (String × BackendMetrics))
    (hf : ∀ v, lookupKV mm b = some v →
      v.connections ≤ (f v).connections ∧ v.requests ≤ (f v).requests ∧
      v.failures ≤ (f v).failures ∧ v.bytes_sent ≤ (f v).bytes_sent ∧
      v.bytes_received ≤ (f v).bytes_received) :
    ∀ k v, lookupKV mm k = some v →
      ∃ v', lookupKV (bumpBackend f b mm) k = some v' ∧
        v.connections ≤ v'.connections ∧ v.requests ≤ v'.requests ∧
        v.failures ≤ v'.failures ∧ v.bytes_sent ≤ v'.bytes_sent ∧
        v.bytes_received ≤ v'.bytes_received := by
  intro k v hv
  by_cases hk : k = b
  · subst hk
    refine ⟨f v, ?_, hf v hv⟩
    unfold bumpBackend
    rw [lookupKV_insert_self, hv]
    rfl
  · exact ⟨v,
      by unfold bumpBackend; rw [lookupKV_insert_ne _ _ _ _ hk]; exact hv,
      le_rfl, le_rfl, le_rfl, le_rfl, le_rfl⟩

set_option maxRecDepth 4000 in
/-- C9 amended.  Every atomic `u64` counter of the collector except the
two `active_*` gauges — including every per-backend counter — is
non-decreasing under every collector operation, provided the operation's
`fetch_add` does not overflow `u64`; the `active_*` gauges are
incremented by opens and decremented (wrapping at zero) by closes, as
the counterexample shows. -/
theorem metrics_monotone_amended (op : MetricsOp) (m : MetricsCollector)
    (h : metricsNoOverflow op m) :
    MonoCounters m (applyMetricsOp op m) := by
  cases op with
  | recordTcpConnection =>
    exact ⟨u64Add_ge _ _ h, le_rfl, le_rfl, le_rfl, le_rfl, le_rfl, le_rfl,
      le_rfl, le_rfl, le_rfl, mapLe_refl m.backend_metrics⟩
  | closeTcpConnection =>
    exact ⟨le_rfl, le_rfl, le_rfl, le_rfl, le_rfl, le_rfl, le_rfl, le_rfl,
      le_rfl, le_rfl, mapLe_refl m.backend_metrics⟩
  | recordUdpSession =>
    exact ⟨le_rfl, u64Add_ge _ _ h, le_rfl, le_rfl, le_rfl, le_rfl, le_rfl,
      le_rfl, le_rfl, le_rfl, mapLe_refl m.backend_metrics⟩
  | closeUdpSession =>
    exact ⟨le_rfl, le_rfl, le_rfl, le_rfl, le_rfl, le_rfl, le_rfl, le_rfl,
      le_rfl, le_rfl, mapLe_refl m.backend_metrics⟩
  | recordBytesSent n =>
    exact ⟨le_rfl, le_rfl, u64Add_ge _ _ h, le_rfl, le_rfl, le_rfl, le_rfl,
      le_rfl, le_rfl, le_rfl, mapLe_refl m.backend_metrics⟩
  | recordBytesReceived n =>
    exact ⟨le_rfl, le_rfl, le_rfl, u64Add_ge _ _ h, le_rfl, le_rfl, le_rfl,
      le_rfl, le_rfl, le_rfl, mapLe_refl m.backend_metrics⟩
  | recordPacketSent =>
    exact ⟨le_rfl, le_rfl, le_rfl, le_rfl, u64Add_ge _ _ h, le_rfl, le_rfl,
      le_rfl, le_rfl, le_rfl, mapLe_refl m.backend_metrics⟩
  | recordPacketReceived =>
    exact ⟨le_rfl, le_rfl, le_rfl, le_rfl, le_rfl, u64Add_ge _ _ h, le_rfl,
      le_rfl, le_rfl, le_rfl, mapLe_refl m.backend_metrics⟩
  | recordLatency d =>
    exact ⟨le_rfl, le_rfl, le_rfl, le_rfl, le_rfl, le_rfl, le_rfl, le_rfl,
      le_rfl, le_rfl, mapLe_refl m.backend_metrics⟩
  | recordBackendRequest b =>
    exact ⟨le_rfl, le_rfl, le_rfl, le_rfl, le_rfl, le_rfl, le_rfl, le_rfl,
      le_rfl, le_rfl,
      bumpBackend_le (fun v => { v with requests := u64Add v.requests 1 }) b
        m.backend_metrics
        (fun v hv => ⟨le_rfl, u64Add_ge _ _ (h v hv), le_rfl, le_rfl, le_rfl⟩)⟩
  | recordBackendConnection b =>
    exact ⟨le_rfl, le_rfl, le_rfl, le_rfl, le_rfl, le_rfl, le_rfl, le_rfl,
      le_rfl, le_rfl,
      bumpBackend_le (fun v => { v with connections := u64Add v.connections 1 })
        b m.backend_metrics
        (fun v hv => ⟨u64Add_ge _ _ (h v hv), le_rfl, le_rfl, le_rfl, le_rfl⟩)⟩
  | recordBackendFailure b =>
    exact ⟨le_rfl, le_rfl, le_rfl, le_rfl, le_rfl, le_rfl, le_rfl, le_rfl,
      le_rfl, le_rfl,
      bumpBackend_le (fun v => { v with failures := u64Add v.failures 1 }) b
        m.backend_metrics
        (fun v hv => ⟨le_rfl, le_rfl, u64Add_ge _ _ (h v hv), le_rfl, le_rfl⟩)⟩
  | recordBackendBytesSent b n =>
    exact ⟨le_rfl, le_rfl, le_rfl, le_rfl, le_rfl, le_rfl, le_rfl, le_rfl,
      le_rfl, le_rfl,
      bumpBackend_le (fun v => { v with bytes_sent := u64Add v.bytes_sent n }) b
        m.backend_metrics
        (fun v hv => ⟨le_rfl, le_rfl, le_rfl, u64Add_ge _ _ (h v hv), le_rfl⟩)⟩
  | recordBackendBytesReceived b n =>
    exact ⟨le_rfl, le_rfl, le_rfl, le_rfl, le_rfl, le_rfl, le_rfl, le_rfl,
      le_rfl, le_rfl,
      bumpBackend_le
        (fun v => { v with bytes_received := u64Add v.bytes_received n }) b
        m.backend_metrics
        (fun v hv => ⟨le_rfl, le_rfl, le_rfl, le_rfl, u64Add_ge _ _ (h v hv)⟩)⟩
  | recordRateLimitAllowed =>
    exact ⟨le_rfl, le_rfl, le_rfl, le_rfl, le_rfl, le_rfl, u64Add_ge _ _ h,
      le_rfl, le_rfl, le_rfl, mapLe_refl m.backend_metrics⟩
  | recordRateLimitDenied =>
    exact ⟨le_rfl, le_rfl, le_rfl, le_rfl, le_rfl, le_rfl, le_rfl,
      u64Add_ge _ _ h, le_rfl, le_rfl, mapLe_refl m.backend_metrics⟩
  | recordCircuitBreakerOpen =>
    exact ⟨le_rfl, le_rfl, le_rfl, le_rfl, le_rfl, le_rfl, le_rfl, le_rfl,
      u64Add_ge _ _ h, le_rfl, mapLe_refl m.backend_metrics⟩
  | recordCircuitBreakerHalfOpen =>
    exact ⟨le_rfl, le_rfl, le_rfl, le_rfl, le_rfl, le_rfl, le_rfl, le_rfl,
      le_rfl, u64Add_ge _ _ h, mapLe_refl m.backend_metrics⟩

/-- Witness for C9 amended at a fresh collector and a byte-count
increment. -/
theorem metrics_monotone_amended_witness :
    metricsNoOverflow (.recordBytesSent 5) MetricsCollector.new ∧
    MonoCounters MetricsCollector.new
      (applyMetricsOp (.recordBytesSent 5) MetricsCollector.new) := by
  have hno : metricsNoOverflow (.recordBytesSent 5) MetricsCollector.new := by
    show MetricsCollector.new.bytes_sent + 5 < 2 ^ 64
    norm_num [MetricsCollector.new]
  exact ⟨hno,
    metrics_monotone_amended (.recordBytesSent 5) MetricsCollector.new hno⟩

end Aegis
